import Mathlib

/-!
# Verification of the OpenAI provider adapter (`execution-openai`)

Shallow embedding of the provider in `src/index.ts` (the streaming variant):
the outbound/inbound message mapper, credential and model resolution of
`OpenAIProvider.execute` / `OpenAIProvider.executeStream`, and the stream
reassembler that turns vendor fragments into neutral `StreamChunk`s.

JavaScript string truthiness (`if (x)`, `x || y`) is modelled explicitly:
an optional string is truthy iff it is present and non-empty.
-/

set_option autoImplicit false

namespace ExecOpenAI

/-- JS truthiness of an optional string: `undefined`/`null` and `""` are falsy. -/
def strTruthy : Option String → Bool
  | none => false
  | some s => s != ""

/-- `x || ''` on an optional string (used for `(msg as any).tool_call_id || ''`). -/
def orEmpty (o : Option String) : String := o.getD ""

/-- Message roles of the neutral model (`Message.role` in `index.ts`). -/
inductive Role where
  | user
  | assistant
  | system
  | developer
  | tool
deriving DecidableEq, Repr

/-- Neutral message content: `string | string[] | null` in `index.ts`. -/
inductive Content where
  | str (s : String)
  | arr (xs : List String)
  | null
deriving DecidableEq, Repr

/-- `function` field of a vendor tool call: `{ name, arguments }`. -/
structure ToolCallFunction where
  name : String
  arguments : String
deriving DecidableEq, Repr

/-- A vendor tool-call entry `{ id, type, function: { name, arguments } }`.
The same shape serves the neutral `ProviderResponse.toolCalls` entries, which
the code builds with `type: 'function'`. -/
structure VendorToolCall where
  id : String
  type : String
  function : ToolCallFunction
deriving DecidableEq, Repr

/-- Neutral message (`Message` in `index.ts`, together with the
`(msg as any).tool_call_id` and `(msg as any).tool_calls` fields the mapper
reads off it). -/
structure Message where
  role : Role
  content : Content
  name : Option String := none
  tool_call_id : Option String := none
  tool_calls : Option (List VendorToolCall) := none
deriving DecidableEq, Repr

/-- One hex digit (lower case), for JSON control-character escapes. -/
def hexDigit (n : Nat) : Char :=
  if n < 10 then Char.ofNat (48 + n) else Char.ofNat (87 + n)

/-- `JSON.stringify` escape of one character inside a string literal. -/
def jsonEscapeChar (c : Char) : String :=
  if c = '"' then "\\\""
  else if c = '\\' then "\\\\"
  else if c = '\x08' then "\\b"
  else if c = '\t' then "\\t"
  else if c = '\n' then "\\n"
  else if c = '\x0c' then "\\f"
  else if c = '\r' then "\\r"
  else if c.toNat < 32 then
    "\\u00" ++ String.mk [hexDigit (c.toNat / 16), hexDigit (c.toNat % 16)]
  else String.singleton c

/-- `JSON.stringify` of a string value (quoted, escaped). -/
def jsonQuote (s : String) : String :=
  "\"" ++ s.data.foldl (fun acc c => acc ++ jsonEscapeChar c) "" ++ "\""

/-- `JSON.stringify` of a non-string neutral content value
(`string[]` or `null`). -/
def jsonStringifyContent : Content → String
  | .str s => jsonQuote s
  | .arr xs => "[" ++ String.intercalate "," (xs.map jsonQuote) ++ "]"
  | .null => "null"

/-- `typeof msg.content === 'string' ? msg.content : JSON.stringify(msg.content)`. -/
def coerceContent : Content → String
  | .str s => s
  | c => jsonStringifyContent c

/-- Vendor-format chat message: the three shapes the outbound mapper emits
(tool result, assistant-with-tool-calls, plain message). -/
inductive VendorMessage where
  | toolResult (content : String) (tool_call_id : String)
  | assistantWithToolCalls (content : Content) (tool_calls : List VendorToolCall)
  | basic (role : Role) (content : String) (name : Option String)
deriving DecidableEq, Repr

/-- Outbound mapping of one neutral message (`request.messages.map((msg) => ...)`
in both `execute` and `executeStream`; the two copies are identical). A present
`tool_calls` array (even empty) is truthy in JS, so the assistant branch fires
whenever the field is present. -/
def mapOutbound (msg : Message) : VendorMessage :=
  if msg.role = .tool then
    .toolResult (coerceContent msg.content) (orEmpty msg.tool_call_id)
  else if msg.role = .assistant ∧ msg.tool_calls.isSome then
    .assistantWithToolCalls msg.content (msg.tool_calls.getD [])
  else
    .basic (if msg.role = .developer then .system else msg.role)
      (coerceContent msg.content) msg.name

/-- Vendor response message of the first choice: `{ content, tool_calls? }`
(`content` is `string | null`). -/
structure ResponseMessage where
  content : Option String
  tool_calls : Option (List VendorToolCall)
deriving DecidableEq, Repr

/-- One vendor choice of a non-streaming response. -/
structure VendorChoice where
  message : ResponseMessage
deriving DecidableEq, Repr

/-- Vendor usage record `{ prompt_tokens, completion_tokens }`. -/
structure VendorUsage where
  prompt_tokens : Nat
  completion_tokens : Nat
deriving DecidableEq, Repr

/-- Vendor non-streaming response `{ choices, model, usage? }`. -/
structure VendorResponse where
  choices : List VendorChoice
  model : String
  usage : Option VendorUsage
deriving DecidableEq, Repr

/-- Neutral usage `{ inputTokens, outputTokens }`. -/
structure UsageTokens where
  inputTokens : Nat
  outputTokens : Nat
deriving DecidableEq, Repr

/-- Neutral `ProviderResponse`. -/
structure ProviderResponse where
  content : String
  model : String
  usage : Option UsageTokens
  toolCalls : Option (List VendorToolCall)
deriving DecidableEq, Repr

/-- Inbound mapping of one vendor tool-call entry to the neutral shape:
`{ id: tc.id, type: 'function', function: { name, arguments } }`. -/
def mapToolCallIn (tc : VendorToolCall) : VendorToolCall :=
  { id := tc.id, type := "function",
    function := { name := tc.function.name, arguments := tc.function.arguments } }

/-- Inbound mapping of a vendor response (`execute` lines building the returned
`ProviderResponse`). The code reads `response.choices[0]` unguarded; an empty
`choices` list is a precondition violation modelled as `none`. -/
def mapInbound (r : VendorResponse) : Option ProviderResponse :=
  match r.choices.head? with
  | none => none
  | some choice => some {
      content := (choice.message.content).getD "",
      model := r.model,
      usage := r.usage.map fun u =>
        { inputTokens := u.prompt_tokens, outputTokens := u.completion_tokens },
      toolCalls := choice.message.tool_calls.map fun l =>
        (l.filter fun tc => tc.type == "function").map mapToolCallIn }

/-- Tool parameter schema. The code forwards it untouched
(`parameters: tool.parameters`), so its property map is carried opaquely as
its JSON text; no claim inspects it. -/
structure ToolParameterSchema where
  type : String
  propertiesJson : String
  required : Option (List String) := none
  additionalProperties : Option Bool := none
deriving DecidableEq, Repr

/-- Neutral tool definition `{ name, description, parameters }`. -/
structure ToolDefinition where
  name : String
  description : String
  parameters : ToolParameterSchema
deriving DecidableEq, Repr

/-- Vendor function-tool entry `{ type: 'function', function: { ... } }`. -/
structure OpenAIFunctionDef where
  name : String
  description : String
  parameters : ToolParameterSchema
deriving DecidableEq, Repr

/-- Vendor tool entry. -/
structure OpenAITool where
  type : String
  function : OpenAIFunctionDef
deriving DecidableEq, Repr

/-- `if (request.tools && request.tools.length > 0) openaiTools = ...` —
identical in `execute` and `executeStream`. -/
def buildTools (tools : Option (List ToolDefinition)) : Option (List OpenAITool) :=
  match tools with
  | some l =>
      if l.length > 0 then
        some (l.map fun t =>
          { type := "function",
            function := { name := t.name, description := t.description,
                          parameters := t.parameters } })
      else none
  | none => none

/-- Neutral request (`Request` in `index.ts`); `addMessage` is a callback the
provider never invokes and `validator` is never read, so neither is modelled. -/
structure Request where
  messages : List Message
  model : String
  responseFormat : Option String := none
  tools : Option (List ToolDefinition) := none
deriving DecidableEq, Repr

/-- Execution options (`ExecutionOptions` in `index.ts`). Numeric fields are
forwarded opaquely to the vendor call and touched by no claim. -/
structure ExecutionOptions where
  apiKey : Option String := none
  model : Option String := none
  temperature : Option Int := none
  maxTokens : Option Nat := none
  timeout : Option Nat := none
  retries : Option Nat := none
deriving DecidableEq, Repr

/-- `[a-zA-Z0-9_-]` (ASCII). -/
def isKeyChar (c : Char) : Bool := c.isAlphanum || c == '_' || c == '-'

/-- Character-list prefix test (`startsWith` over the decoded characters). -/
def startsWithChars : List Char → List Char → Bool
  | [], _ => true
  | _ :: _, [] => false
  | a :: as, b :: bs => a == b && startsWithChars as bs

/-- A run of at least 20 characters of the key character class. -/
def classRun20 (t : List Char) : Bool := decide (20 ≤ t.length) && t.all isKeyChar

/-- The validator registered with the redactor at module load:
`/^sk-(proj-)?[a-zA-Z0-9_-]{20,}$/` (the optional `proj-` group transcribed as
a disjunction over the string's characters). -/
def validKeyFormat (k : String) : Bool :=
  startsWithChars "sk-".data k.data &&
    (classRun20 (k.data.drop 3) ||
      (startsWithChars "proj-".data (k.data.drop 3) && classRun20 (k.data.drop 8)))

/-- Modelled from the spec: the redaction collaborator (`@utilarium/offrecord`,
outside this repository) exposes `validateKey(key, name)`, which per its
contract applies the validator predicate registered under `name`; the provider
registered `validKeyFormat` for `'openai'` at module load. -/
def validateKey (k : String) : Bool := validKeyFormat k

/-- Setup errors raised before the vendor call. -/
inductive ExecError where
  | missingCredential
  | invalidCredential
deriving DecidableEq, Repr

/-- Options the vendor client is constructed with: the credential, and the
proxy-routing fetch handle when one was installed (recorded as the proxy URL
it was built from). -/
structure ClientOptions where
  apiKey : String
  proxyFetch : Option String
deriving DecidableEq, Repr

/-- Everything `execute`/`executeStream` computes before the vendor call:
the constructed client options, the resolved model, and the mapped messages
and tools. -/
structure SetupResult where
  client : ClientOptions
  model : String
  messages : List VendorMessage
  tools : Option (List OpenAITool)
deriving DecidableEq, Repr

/-- `options.apiKey || process.env.OPENAI_API_KEY` (JS `||`: the left operand
wins iff truthy, otherwise the right operand is taken as-is). -/
def resolveRawKey (optKey envKey : Option String) : Option String :=
  if strTruthy optKey then optKey else envKey

/-- `options.model || request.model || 'gpt-4'` — identical in both paths. -/
def resolveModel (optModel : Option String) (reqModel : String) : String :=
  if strTruthy optModel then optModel.getD ""
  else if reqModel != "" then reqModel
  else "gpt-4"

/-- Pre-network phase of `execute`: credential resolution (`!apiKey` rejects
falsy, i.e. absent or empty), shape validation, client construction with
proxy routing (`getProxyUrl()` / `createProxyFetch`), model resolution, and
outbound message/tool mapping. An error means no client was constructed. -/
def executeSetup (req : Request) (opts : ExecutionOptions)
    (envKey proxyUrl : Option String) : Except ExecError SetupResult :=
  let rawKey := resolveRawKey opts.apiKey envKey
  if strTruthy rawKey = false then .error .missingCredential
  else
    let k := rawKey.getD ""
    if validateKey k = false then .error .invalidCredential
    else .ok {
      client := { apiKey := k,
                  proxyFetch := if strTruthy proxyUrl then proxyUrl else none },
      model := resolveModel opts.model req.model,
      messages := req.messages.map mapOutbound,
      tools := buildTools req.tools }

/-- Pre-network phase of `executeStream`: same resolution, validation, model
and mapping code, but the client is built as `new OpenAI({ apiKey })` — the
streaming path never reads the proxy configuration. -/
def executeStreamSetup (req : Request) (opts : ExecutionOptions)
    (envKey : Option String) : Except ExecError SetupResult :=
  let rawKey := resolveRawKey opts.apiKey envKey
  if strTruthy rawKey = false then .error .missingCredential
  else
    let k := rawKey.getD ""
    if validateKey k = false then .error .invalidCredential
    else .ok {
      client := { apiKey := k, proxyFetch := none },
      model := resolveModel opts.model req.model,
      messages := req.messages.map mapOutbound,
      tools := buildTools req.tools }

/-- `execute` with the vendor's single-shot completion call supplied as an
oracle: an error result is produced without consulting the oracle, so a result
that is the same for every oracle witnesses that no vendor call was made. -/
def executeFull (req : Request) (opts : ExecutionOptions)
    (envKey proxyUrl : Option String)
    (vendorCall : SetupResult → VendorResponse) :
    Except ExecError (Option ProviderResponse) :=
  match executeSetup req opts envKey proxyUrl with
  | .error e => .error e
  | .ok s => .ok (mapInbound (vendorCall s))

/-- `tc.function` on a streamed tool-call fragment: `{ name?, arguments? }`. -/
structure DeltaToolCallFunction where
  name : Option String := none
  arguments : Option String := none
deriving DecidableEq, Repr

/-- One streamed tool-call fragment `{ index, id?, function? }`. -/
structure DeltaToolCall where
  index : Nat
  id : Option String := none
  function : Option DeltaToolCallFunction := none
deriving DecidableEq, Repr

/-- `delta` of a streamed choice: `{ content?, tool_calls? }`. -/
structure StreamDelta where
  content : Option String := none
  tool_calls : Option (List DeltaToolCall) := none
deriving DecidableEq, Repr

/-- One streamed choice `{ delta, finish_reason? }`. -/
structure StreamChoice where
  delta : StreamDelta
  finish_reason : Option String := none
deriving DecidableEq, Repr

/-- One vendor stream fragment `{ choices, usage? }`. -/
structure StreamFragment where
  choices : List StreamChoice
  usage : Option VendorUsage := none
deriving DecidableEq, Repr

/-- Neutral stream chunk: closed sum with exactly the payload each `yield`
site of `executeStream` sets on the `StreamChunk` record. -/
inductive StreamChunk where
  | text (t : String)
  | tool_call_start (id : String) (index : Nat) (name : Option String)
  | tool_call_delta (index : Nat) (argumentsDelta : String)
  | tool_call_end (id : String) (index : Nat) (name : String)
  | usage (inputTokens outputTokens : Nat)
  | done
deriving DecidableEq, Repr

/-- An in-progress tool call `{ id, name, arguments }` under reassembly. -/
structure InProgressToolCall where
  id : String
  name : String
  arguments : String
deriving DecidableEq, Repr

/-- The `toolCallsInProgress` map, keyed by fragment index. A JS `Map` holds
entries in insertion order and `set` on an existing key updates the value in
place, so it is modelled as an association list with in-place update. -/
abbrev RState : Type := List (Nat × InProgressToolCall)

/-- `Map.set`: update in place if the key exists, else append. -/
def mapSet (m : RState) (k : Nat) (v : InProgressToolCall) : RState :=
  if m.any (fun p => p.1 == k) then
    m.map (fun p => if p.1 == k then (k, v) else p)
  else m ++ [(k, v)]

/-- `Map.get`: first (and only) entry at the key. -/
def mapGet (m : RState) (k : Nat) : Option InProgressToolCall :=
  (m.find? (fun p => p.1 == k)).map (·.2)

/-- First half of the tool-call fragment body, `if (tc.id) { ... }`: a truthy
`id` starts a new in-progress entry at the fragment index (name defaulted with
`|| ''`, arguments empty) and yields a `tool_call_start` chunk carrying the
optional name as received. -/
def startStep (st : RState) (tc : DeltaToolCall) : RState × List StreamChunk :=
  if strTruthy tc.id then
    (mapSet st tc.index
        { id := tc.id.getD "",
          name := if strTruthy (tc.function.bind (·.name)) then
              (tc.function.bind (·.name)).getD "" else "",
          arguments := "" },
      [StreamChunk.tool_call_start (tc.id.getD "") tc.index
        (tc.function.bind (·.name))])
  else (st, [])

/-- Second half, `if (tc.function?.arguments) { ... }`: a truthy arguments
delta is appended to the in-progress entry at that index and yields a
`tool_call_delta` chunk carrying only index and delta; with no entry at the
index it is silently dropped. -/
def deltaStep (st : RState) (tc : DeltaToolCall) : RState × List StreamChunk :=
  if strTruthy (tc.function.bind (·.arguments)) then
    match mapGet st tc.index with
    | some entry =>
        (mapSet st tc.index
            { entry with
              arguments := entry.arguments ++ (tc.function.bind (·.arguments)).getD "" },
          [StreamChunk.tool_call_delta tc.index
            ((tc.function.bind (·.arguments)).getD "")])
    | none => (st, [])
  else (st, [])

/-- Processing of one streamed tool-call fragment (the body of
`for (const tc of delta.tool_calls)`): the start step, then the delta step on
the updated state. -/
def processDeltaToolCall (st : RState) (tc : DeltaToolCall) :
    RState × List StreamChunk :=
  let a := startStep st tc
  let b := deltaStep a.1 tc
  (b.1, a.2 ++ b.2)

/-- Left-to-right processing of the tool-call fragments of one delta. -/
def processDeltaToolCalls (st : RState) :
    List DeltaToolCall → RState × List StreamChunk
  | [] => (st, [])
  | tc :: rest =>
      let step := processDeltaToolCall st tc
      let next := processDeltaToolCalls step.1 rest
      (next.1, step.2 ++ next.2)

/-- Processing of one vendor fragment (one iteration of
`for await (const chunk of stream)`): truthy `delta.content` yields a `text`
chunk; a present `tool_calls` array is folded over; `finish_reason ===
'tool_calls'` yields one `tool_call_end` per in-progress entry, in insertion
order; a present `usage` yields a `usage` chunk. -/
def processFragment (st : RState) (frag : StreamFragment) :
    RState × List StreamChunk :=
  let d := (frag.choices.head?).map (·.delta)
  let textChunks :=
    if strTruthy (d.bind (·.content)) then
      [StreamChunk.text ((d.bind (·.content)).getD "")]
    else []
  let stepTc :=
    match d.bind (·.tool_calls) with
    | some tcs => processDeltaToolCalls st tcs
    | none => (st, [])
  let endChunks :=
    if (frag.choices.head?).bind (·.finish_reason) = some "tool_calls" then
      stepTc.1.map (fun p => StreamChunk.tool_call_end p.2.id p.1 p.2.name)
    else []
  let usageChunks :=
    match frag.usage with
    | some u => [StreamChunk.usage u.prompt_tokens u.completion_tokens]
    | none => []
  (stepTc.1, textChunks ++ stepTc.2 ++ endChunks ++ usageChunks)

/-- Processing of a whole fragment sequence, threading the reassembly state. -/
def processFragments (st : RState) :
    List StreamFragment → RState × List StreamChunk
  | [] => (st, [])
  | f :: rest =>
      let step := processFragment st f
      let next := processFragments step.1 rest
      (next.1, step.2 ++ next.2)

/-- The chunk sequence `executeStream` emits for a fragment sequence consumed
without error: the per-fragment chunks, then the unconditional final
`yield { type: 'done' }`. -/
def runStream (frags : List StreamFragment) : List StreamChunk :=
  (processFragments [] frags).2 ++ [StreamChunk.done]

/-- `executeStream` with the vendor's streaming call supplied as an oracle;
as with `executeFull`, an error result independent of the oracle witnesses
that no vendor call was made. -/
def executeStreamFull (req : Request) (opts : ExecutionOptions)
    (envKey : Option String)
    (vendorStream : SetupResult → List StreamFragment) :
    Except ExecError (List StreamChunk) :=
  match executeStreamSetup req opts envKey with
  | .error e => .error e
  | .ok s => .ok (runStream (vendorStream s))

/-- The tool-call fragments the reassembler reads off one vendor fragment
(first choice's `delta.tool_calls`, or nothing). -/
def fragToolCalls (frag : StreamFragment) : List DeltaToolCall :=
  ((frag.choices.head?.map (·.delta)).bind (·.tool_calls)).getD []

/-- A fragment with every tool-call fragment at index `idx` removed (content,
finish reason and usage untouched); used to state that orphan deltas at `idx`
contribute nothing to the stream. -/
def stripToolCallsAt (idx : Nat) (frag : StreamFragment) : StreamFragment :=
  { choices := frag.choices.map fun c =>
      { c with delta := { c.delta with
          tool_calls := c.delta.tool_calls.map (List.filter fun tc => !(tc.index == idx)) } },
    usage := frag.usage }

/-! Concrete inputs used by witnesses and counterexamples. -/

/-- A well-formed OpenAI credential (matches the registered validator). -/
def wKey : String := "sk-aaaaaaaaaaaaaaaaaaaa"

/-- A minimal request. -/
def wReq : Request := { messages := [], model := "gpt-4o" }

/-- A fixed vendor response, used as a constant vendor-call oracle. -/
def wVendorResponse : VendorResponse :=
  { choices := [{ message := { content := some "ok", tool_calls := none } }],
    model := "gpt-4o", usage := none }

/-- Constant non-streaming vendor oracle. -/
def wOracle : SetupResult → VendorResponse := fun _ => wVendorResponse

/-- Constant streaming vendor oracle. -/
def wStreamOracle : SetupResult → List StreamFragment := fun _ => []

/-- Vendor response whose first choice reports a present-but-empty tool-call
list. -/
def cexEmptyToolCallsResp : VendorResponse :=
  { choices := [{ message := { content := some "hi", tool_calls := some [] } }],
    model := "gpt-4o", usage := none }

/-- A mixed-type vendor tool-call list: function, custom, function. -/
def wMixedToolCalls : List VendorToolCall :=
  [{ id := "a", type := "function", function := { name := "f", arguments := "1" } },
   { id := "b", type := "custom", function := { name := "g", arguments := "2" } },
   { id := "c", type := "function", function := { name := "h", arguments := "3" } }]

/-- Vendor response with a mixed-type tool-call list and present usage. -/
def wMixedResp : VendorResponse :=
  { choices := [{ message := { content := none, tool_calls := some wMixedToolCalls } }],
    model := "gpt-4o", usage := some { prompt_tokens := 7, completion_tokens := 5 } }

/-- Options carrying a present-but-empty model override. -/
def cexEmptyModelOpts : ExecutionOptions := { apiKey := some wKey, model := some "" }

/-- Options carrying only a valid credential. -/
def wKeyOpts : ExecutionOptions := { apiKey := some wKey }

/-- A proxy URL configured in the environment. -/
def wProxyUrl : Option String := some "http://proxy.internal:8080"

/-- A neutral user message whose content is JS `null`. -/
def cexNullContentMsg : Message := { role := .user, content := .null }

/-- A neutral developer message with string content. -/
def wDevMsg : Message := { role := .developer, content := .str "be brief", name := some "ops" }

/-- The single-choice vendor response structurally equivalent to an outbound
plain message with the given content (vendor echoes the content back). -/
def structEquivResponse (content : String) : VendorResponse :=
  { choices := [{ message := { content := some content, tool_calls := none } }],
    model := "gpt-4o", usage := none }

/-- Outbound-then-inbound round trip of a neutral message: map it out; when it
lands in the plain-message shape, feed the structurally equivalent
single-choice vendor response back through the inbound mapper and return the
resulting content. -/
def roundTripContent (msg : Message) : Option String :=
  match mapOutbound msg with
  | .basic _ c _ => (mapInbound (structEquivResponse c)).map (·.content)
  | _ => none

/-- One orphan arguments delta at index 0 (no id). -/
def cexOrphanTc : DeltaToolCall :=
  { index := 0, function := some { arguments := some "ab" } }

/-- A stream fragment carrying one orphan arguments delta at index 0 (no id
was ever supplied for that index). -/
def cexOrphanFrag : StreamFragment :=
  { choices := [{ delta := { tool_calls := some [cexOrphanTc] } }] }

/-- A stream fragment carrying text alongside the orphan stream. -/
def wTextFrag : StreamFragment :=
  { choices := [{ delta := { content := some "hello" } }] }

/-- Options with no credential and no overrides. -/
def wEmptyOpts : ExecutionOptions := {}

/-- Options carrying a malformed credential. -/
def cexBadOpts : ExecutionOptions := { apiKey := some "bad" }

/-- The proxy configuration recorded in a setup outcome (`none` when setup
errored and no client was constructed). -/
def clientProxyOf (r : Except ExecError SetupResult) : Option (Option String) :=
  match r with
  | .ok s => some s.client.proxyFetch
  | .error _ => none

/-- The resolved model recorded in a setup outcome. -/
def modelOf (r : Except ExecError SetupResult) : Option String :=
  match r with
  | .ok s => some s.model
  | .error _ => none

/-! ## Theorems -/

/-- C3: with no resolvable credential both `execute` and `executeStream`
reject with the missing-credential error, and with a resolved credential that
fails the shape validator both reject with the invalid-credential error. The
vendor call is a universally quantified oracle and the conclusion holds for
every oracle, so no vendor call contributes to the outcome; an `error` result
carries no `SetupResult`, so no vendor client was constructed. -/
theorem credential_errors_fail_fast (req : Request) (opts : ExecutionOptions)
    (envKey proxyUrl : Option String) (oracle : SetupResult → VendorResponse)
    (oracleS : SetupResult → List StreamFragment) :
    (strTruthy (resolveRawKey opts.apiKey envKey) = false →
      executeFull req opts envKey proxyUrl oracle = .error .missingCredential ∧
      executeStreamFull req opts envKey oracleS = .error .missingCredential) ∧
    (∀ k, resolveRawKey opts.apiKey envKey = some k → k ≠ "" →
      validateKey k = false →
      executeFull req opts envKey proxyUrl oracle = .error .invalidCredential ∧
      executeStreamFull req opts envKey oracleS = .error .invalidCredential) := by
  constructor
  · intro h
    constructor <;>
      simp [executeFull, executeStreamFull, executeSetup, executeStreamSetup, h]
  · intro k hk hne hv
    have ht : strTruthy (some k) = true := by simp [strTruthy, hne]
    constructor <;>
      simp [executeFull, executeStreamFull, executeSetup, executeStreamSetup,
        hk, ht, hv]

/-- Witness for C3: a call with no credential anywhere is rejected as missing,
and a call with the malformed credential `"bad"` is rejected as invalid. -/
theorem credential_errors_fail_fast_witness :
    (executeFull wReq wEmptyOpts none none wOracle = .error .missingCredential ∧
      executeStreamFull wReq wEmptyOpts none wStreamOracle = .error .missingCredential) ∧
    (executeFull wReq cexBadOpts none none wOracle = .error .invalidCredential ∧
      executeStreamFull wReq cexBadOpts none wStreamOracle = .error .invalidCredential) :=
  ⟨(credential_errors_fail_fast wReq wEmptyOpts none none wOracle wStreamOracle).1
      (by decide),
    (credential_errors_fail_fast wReq cexBadOpts none none wOracle wStreamOracle).2
      "bad" (by decide) (by decide) (by decide)⟩

/-- C10: an empty-string explicit credential behaves exactly like an absent
one on both paths: resolution falls through to the environment credential, and
when that is also falsy the call rejects with the missing-credential error
(never the invalid-credential error). -/
theorem empty_apiKey_treated_absent (req : Request) (opts : ExecutionOptions)
    (envKey proxyUrl : Option String) (oracle : SetupResult → VendorResponse)
    (oracleS : SetupResult → List StreamFragment) (h : opts.apiKey = some "") :
    executeFull req opts envKey proxyUrl oracle =
      executeFull req { opts with apiKey := none } envKey proxyUrl oracle ∧
    executeStreamFull req opts envKey oracleS =
      executeStreamFull req { opts with apiKey := none } envKey oracleS ∧
    resolveRawKey opts.apiKey envKey = envKey ∧
    (strTruthy envKey = false →
      executeFull req opts envKey proxyUrl oracle = .error .missingCredential ∧
      executeStreamFull req opts envKey oracleS = .error .missingCredential) := by
  have hr : resolveRawKey opts.apiKey envKey = envKey := by
    simp [resolveRawKey, h, strTruthy]
  refine ⟨?_, ?_, hr, fun he => ?_⟩
  · simp [executeFull, executeSetup, resolveRawKey, h, strTruthy]
  · simp [executeStreamFull, executeStreamSetup, resolveRawKey, h, strTruthy]
  · constructor <;>
      simp [executeFull, executeStreamFull, executeSetup, executeStreamSetup,
        hr, he]

/-- Witness for C10: with `apiKey := ""` and no environment credential, both
paths reject with the missing-credential error. -/
theorem empty_apiKey_treated_absent_witness :
    executeFull wReq { apiKey := some "" } none none wOracle = .error .missingCredential ∧
    executeStreamFull wReq { apiKey := some "" } none wStreamOracle = .error .missingCredential :=
  (empty_apiKey_treated_absent wReq { apiKey := some "" } none none wOracle
    wStreamOracle rfl).2.2.2 (by decide)

/-- C7: a neutral `developer` message with string content maps outbound to a
plain vendor message with role `system`, the content passed through
unchanged (and the optional name preserved). -/
theorem developer_maps_to_system (msg : Message) (s : String)
    (h1 : msg.role = .developer) (h2 : msg.content = .str s) :
    mapOutbound msg = .basic .system s msg.name := by
  simp [mapOutbound, h1, h2, coerceContent]

/-- Witness for C7: a concrete developer message maps to role `system` with
its content intact. -/
theorem developer_maps_to_system_witness :
    mapOutbound wDevMsg = .basic .system "be brief" (some "ops") :=
  developer_maps_to_system wDevMsg "be brief" rfl rfl

/-- C8: inbound usage mapping — the neutral usage field is absent exactly when
the vendor usage field is absent, and a present vendor usage maps
prompt/completion token counts to `inputTokens`/`outputTokens`. -/
theorem usage_mapping (r : VendorResponse) (c : VendorChoice)
    (rest : List VendorChoice) (h : r.choices = c :: rest) :
    ∃ resp, mapInbound r = some resp ∧
      (resp.usage = none ↔ r.usage = none) ∧
      (∀ u, r.usage = some u →
        resp.usage = some { inputTokens := u.prompt_tokens,
                            outputTokens := u.completion_tokens }) := by
  have hh : r.choices.head? = some c := by rw [h]; rfl
  refine ⟨_, by rw [mapInbound, hh], ?_, ?_⟩
  · simp
  · intro u hu; simp [hu]

/-- Witness for C8: a response with usage `(7, 5)` maps to
`inputTokens = 7, outputTokens = 5`. -/
theorem usage_mapping_witness :
    (Option.map ProviderResponse.usage (mapInbound wMixedResp)) =
      some (some { inputTokens := 7, outputTokens := 5 }) := by
  obtain ⟨resp, hmi, _, hu⟩ :=
    usage_mapping wMixedResp
      { message := { content := none, tool_calls := some wMixedToolCalls } } [] rfl
  rw [hmi, Option.map_some',
    hu { prompt_tokens := 7, completion_tokens := 5 } rfl]

/-- Counterexample for C4: a vendor response whose first choice reports a
present-but-empty tool-call list (zero tool calls reported) maps to a
present empty neutral `toolCalls` sequence, not to an absent field. -/
theorem inbound_empty_toolCalls_cex :
    Option.map ProviderResponse.toolCalls (mapInbound cexEmptyToolCallsResp) =
        some (some []) ∧
    Option.map ProviderResponse.toolCalls (mapInbound cexEmptyToolCallsResp) ≠
        some none := by
  constructor
  · rfl
  · decide

/-- C4 (amended): inbound mapping keeps only function-type entries of the
first choice's tool-call list, preserving relative order; the neutral
`toolCalls` field is absent iff the vendor field is absent — a present vendor
list with zero function-type entries (in particular an empty one) yields a
present empty sequence. -/
theorem inbound_toolCalls_filter (r : VendorResponse) (c : VendorChoice)
    (rest : List VendorChoice) (h : r.choices = c :: rest) :
    ∃ resp, mapInbound r = some resp ∧
      (resp.toolCalls = none ↔ c.message.tool_calls = none) ∧
      (∀ l, c.message.tool_calls = some l →
        resp.toolCalls =
          some ((l.filter fun tc => tc.type == "function").map mapToolCallIn) ∧
        (l.filter fun tc => tc.type == "function").Sublist l ∧
        (∀ tc ∈ l.filter fun tc => tc.type == "function", tc.type = "function") ∧
        (∀ tc ∈ l, tc.type = "function" →
          tc ∈ l.filter fun tc => tc.type == "function")) := by
  have hh : r.choices.head? = some c := by rw [h]; rfl
  refine ⟨_, by rw [mapInbound, hh], ?_, ?_⟩
  · simp
  · intro l hl
    refine ⟨by simp [hl], l.filter_sublist, ?_, ?_⟩
    · intro tc htc
      have := List.of_mem_filter htc
      simpa using this
    · intro tc htc hty
      exact List.mem_filter.mpr ⟨htc, by simp [hty]⟩

/-- Witness for C4 (amended): the mixed list `[function, custom, function]`
maps to exactly its two function entries, in order. -/
theorem inbound_toolCalls_filter_witness :
    Option.map ProviderResponse.toolCalls (mapInbound wMixedResp) =
      some (some ((wMixedToolCalls.filter fun tc => tc.type == "function").map
        mapToolCallIn)) := by
  obtain ⟨resp, hmi, _, hsome⟩ :=
    inbound_toolCalls_filter wMixedResp
      { message := { content := none, tool_calls := some wMixedToolCalls } } [] rfl
  rw [hmi, Option.map_some', (hsome wMixedToolCalls rfl).1]

/-- Counterexample for C5: `options.model` present but equal to `""` is not
used — JS `||` treats it as absent and resolution falls through to the
request's model, so "each level is used only when every higher-priority level
is absent" fails at this input. -/
theorem model_empty_option_cex :
    cexEmptyModelOpts.model = some "" ∧
    modelOf (executeSetup wReq cexEmptyModelOpts none none) = some "gpt-4o" ∧
    modelOf (executeStreamSetup wReq cexEmptyModelOpts none) = some "gpt-4o" ∧
    modelOf (executeSetup wReq cexEmptyModelOpts none none) ≠ some "" := by
  refine ⟨rfl, by decide, by decide, by decide⟩

/-- C5 (amended): effective-model precedence on both paths, where a level is
skipped when it is absent *or the empty string* (JS falsiness): a present
non-empty `options.model` wins; otherwise a non-empty request model is used;
otherwise the hard-coded fallback `"gpt-4"`. (The call signature has no
separate explicit model argument; `options.model` is the top level.) -/
theorem model_precedence (req : Request) (opts : ExecutionOptions)
    (envKey proxyUrl : Option String) (sA sB : SetupResult)
    (h1 : executeSetup req opts envKey proxyUrl = .ok sA)
    (h2 : executeStreamSetup req opts envKey = .ok sB) :
    (∀ m, opts.model = some m → m ≠ "" → sA.model = m ∧ sB.model = m) ∧
    (strTruthy opts.model = false → req.model ≠ "" →
      sA.model = req.model ∧ sB.model = req.model) ∧
    (strTruthy opts.model = false → req.model = "" →
      sA.model = "gpt-4" ∧ sB.model = "gpt-4") := by
  have hA : sA.model = resolveModel opts.model req.model := by
    simp only [executeSetup] at h1
    split at h1
    · exact absurd h1 (by simp)
    · split at h1
      · exact absurd h1 (by simp)
      · cases h1; rfl
  have hB : sB.model = resolveModel opts.model req.model := by
    simp only [executeStreamSetup] at h2
    split at h2
    · exact absurd h2 (by simp)
    · split at h2
      · exact absurd h2 (by simp)
      · cases h2; rfl
  refine ⟨fun m hm hne => ?_, fun hopt hne => ?_, fun hopt he => ?_⟩
  · rw [hA, hB]
    simp [resolveModel, hm, strTruthy, hne]
  · rw [hA, hB]
    simp [resolveModel, hopt, hne]
  · rw [hA, hB]
    simp [resolveModel, hopt, he]

/-- Witness for C5 (amended): with no model override and request model
`"gpt-4o"`, both paths resolve to `"gpt-4o"`. -/
theorem model_precedence_witness :
    modelOf (executeSetup wReq wKeyOpts none none) = some "gpt-4o" ∧
    modelOf (executeStreamSetup wReq wKeyOpts none) = some "gpt-4o" := by
  have h1 : executeSetup wReq wKeyOpts none none =
      .ok { client := { apiKey := wKey, proxyFetch := none }, model := "gpt-4o",
            messages := [], tools := none } := by rfl
  have h2 : executeStreamSetup wReq wKeyOpts none =
      .ok { client := { apiKey := wKey, proxyFetch := none }, model := "gpt-4o",
            messages := [], tools := none } := by rfl
  obtain ⟨_, hmid, _⟩ := model_precedence wReq wKeyOpts none none _ _ h1 h2
  obtain ⟨ha, hb⟩ := hmid (by decide) (by decide)
  rw [h1, h2]
  simp [modelOf, ha, hb]

/-- Counterexample for C6: with a proxy configured, `execute` constructs its
client with a proxy-routing fetch while `executeStream` does not — the two
paths do not construct the client with the same configuration. -/
theorem stream_client_proxy_cex :
    clientProxyOf (executeSetup wReq wKeyOpts none wProxyUrl) = some wProxyUrl ∧
    clientProxyOf (executeStreamSetup wReq wKeyOpts none) = some none ∧
    clientProxyOf (executeSetup wReq wKeyOpts none wProxyUrl) ≠
      clientProxyOf (executeStreamSetup wReq wKeyOpts none) := by
  refine ⟨by decide, by decide, by decide⟩

/-- C6 (amended): on the same inputs `executeStream` resolves the credential,
raises the pre-network errors, resolves the model, and maps messages and
tools identically to `execute`; client construction differs in exactly the
proxy routing — both bind the same credential, `execute` installs the
configured proxy fetch, and `executeStream` never does. -/
theorem stream_setup_equiv (req : Request) (opts : ExecutionOptions)
    (envKey proxyUrl : Option String) :
    (∀ e, executeSetup req opts envKey proxyUrl = .error e ↔
      executeStreamSetup req opts envKey = .error e) ∧
    (∀ sA sB, executeSetup req opts envKey proxyUrl = .ok sA →
      executeStreamSetup req opts envKey = .ok sB →
      sA.model = sB.model ∧ sA.messages = sB.messages ∧ sA.tools = sB.tools ∧
      sA.client.apiKey = sB.client.apiKey ∧ sB.client.proxyFetch = none ∧
      sA.client.proxyFetch = (if strTruthy proxyUrl then proxyUrl else none)) := by
  simp only [executeSetup, executeStreamSetup]
  by_cases h1 : strTruthy (resolveRawKey opts.apiKey envKey) = false
  · simp [h1]
  · by_cases h2 : validateKey ((resolveRawKey opts.apiKey envKey).getD "") = false
    · simp [h1, h2]
    · simp only [h1, h2, if_false, if_neg]
      refine ⟨by simp, fun sA sB hA hB => ?_⟩
      cases hA; cases hB; simp

/-- Witness for C6 (amended): at a concrete valid credential with a proxy
configured, the two setups agree on model, messages, tools and credential. -/
theorem stream_setup_equiv_witness :
    modelOf (executeSetup wReq wKeyOpts none wProxyUrl) =
      modelOf (executeStreamSetup wReq wKeyOpts none) := by
  have h1 : executeSetup wReq wKeyOpts none wProxyUrl =
      .ok { client := { apiKey := wKey, proxyFetch := wProxyUrl },
            model := "gpt-4o", messages := [], tools := none } := by rfl
  have h2 : executeStreamSetup wReq wKeyOpts none =
      .ok { client := { apiKey := wKey, proxyFetch := none }, model := "gpt-4o",
            messages := [], tools := none } := by rfl
  obtain ⟨hm, -⟩ := (stream_setup_equiv wReq wKeyOpts none wProxyUrl).2 _ _ h1 h2
  rw [h1, h2]
  simp [modelOf, hm]

/-- Counterexample for C9: a user message whose content is JS `null` (not the
tool or assistant-with-tool-calls shape) round-trips to the string `"null"`,
which is not the original content. -/
theorem roundtrip_null_content_cex :
    roundTripContent cexNullContentMsg = some "null" ∧
    cexNullContentMsg.content = Content.null ∧
    cexNullContentMsg.role = Role.user ∧
    Content.null ≠ Content.str "null" := by
  refine ⟨rfl, rfl, rfl, by decide⟩

/-- C9 (amended): for every neutral message that is not a tool message and not
assistant-with-tool-calls and whose content is a string, mapping it outbound
and mapping the structurally equivalent single-choice vendor response back
inbound reproduces the original content; non-string content comes back as its
JSON text form instead. -/
theorem roundtrip_string_content (msg : Message) (s : String)
    (h1 : msg.role ≠ .tool) (h2 : ¬(msg.role = .assistant ∧ msg.tool_calls.isSome))
    (h3 : msg.content = .str s) :
    roundTripContent msg = some s := by
  have hout : mapOutbound msg =
      .basic (if msg.role = .developer then .system else msg.role) s msg.name := by
    simp [mapOutbound, h1, h2, h3, coerceContent]
  simp [roundTripContent, hout, mapInbound, structEquivResponse]

/-- Witness for C9 (amended): the developer message with content
`"be brief"` round-trips to exactly that content. -/
theorem roundtrip_string_content_witness :
    roundTripContent wDevMsg = some "be brief" :=
  roundtrip_string_content wDevMsg "be brief" (by decide) (by decide) rfl

/-! ### Stream reassembler lemmas -/

/-- The only chunk the start step can emit is a `tool_call_start` at the
fragment's index. -/
theorem mem_startStep (st : RState) (tc : DeltaToolCall) (c : StreamChunk)
    (h : c ∈ (startStep st tc).2) :
    c = .tool_call_start (tc.id.getD "") tc.index (tc.function.bind (·.name)) := by
  rw [startStep] at h
  split at h
  · simpa using h
  · simp at h

/-- The only chunk the delta step can emit is a `tool_call_delta` at the
fragment's index. -/
theorem mem_deltaStep (st : RState) (tc : DeltaToolCall) (c : StreamChunk)
    (h : c ∈ (deltaStep st tc).2) :
    c = .tool_call_delta tc.index ((tc.function.bind (·.arguments)).getD "") := by
  rw [deltaStep] at h
  split at h
  · split at h
    · simpa using h
    · simp at h
  · simp at h

/-- Every chunk of one tool-call fragment is a start or a delta at that
fragment's index. -/
theorem mem_processDeltaToolCall (st : RState) (tc : DeltaToolCall)
    (c : StreamChunk) (h : c ∈ (processDeltaToolCall st tc).2) :
    c = .tool_call_start (tc.id.getD "") tc.index (tc.function.bind (·.name)) ∨
    c = .tool_call_delta tc.index ((tc.function.bind (·.arguments)).getD "") := by
  simp only [processDeltaToolCall, List.mem_append] at h
  rcases h with h | h
  · exact Or.inl (mem_startStep _ _ _ h)
  · exact Or.inr (mem_deltaStep _ _ _ h)

/-- No `yield` site inside the tool-call loop emits a `done` chunk. -/
theorem done_not_mem_processDeltaToolCall (st : RState) (tc : DeltaToolCall) :
    StreamChunk.done ∉ (processDeltaToolCall st tc).2 := by
  intro h
  rcases mem_processDeltaToolCall st tc _ h with h' | h' <;> exact
    StreamChunk.noConfusion h'

/-- No `done` chunk arises from folding a delta's tool-call fragments. -/
theorem done_not_mem_processDeltaToolCalls (tcs : List DeltaToolCall) :
    ∀ st, StreamChunk.done ∉ (processDeltaToolCalls st tcs).2 := by
  induction tcs with
  | nil => intro st; simp [processDeltaToolCalls]
  | cons tc rest ih =>
      intro st
      simp only [processDeltaToolCalls, List.mem_append, not_or]
      exact ⟨done_not_mem_processDeltaToolCall st tc, ih _⟩

/-- No `yield` site inside the fragment loop emits a `done` chunk. -/
theorem done_not_mem_processFragment (st : RState) (frag : StreamFragment) :
    StreamChunk.done ∉ (processFragment st frag).2 := by
  intro h
  simp only [processFragment, List.mem_append] at h
  rcases h with ((h | h) | h) | h
  · split at h <;> simp at h
  · split at h
    · exact done_not_mem_processDeltaToolCalls _ _ h
    · simp at h
  · split at h <;> simp at h
  · revert h
    cases frag.usage <;> simp

/-- No `done` chunk arises while the fragment sequence is being consumed. -/
theorem done_not_mem_processFragments (frags : List StreamFragment) :
    ∀ st, StreamChunk.done ∉ (processFragments st frags).2 := by
  induction frags with
  | nil => intro st; simp [processFragments]
  | cons f rest ih =>
      intro st
      simp only [processFragments, List.mem_append, not_or]
      exact ⟨done_not_mem_processFragment st f, ih _⟩

/-- C1: for every finite fragment sequence consumed without error, the chunk
sequence of `executeStream` contains exactly one `done` chunk and it is the
last chunk (so nothing of any kind follows it); it is the unconditional final
`yield` after the fragment loop. -/
theorem runStream_done_once_last (frags : List StreamFragment) :
    (runStream frags).count StreamChunk.done = 1 ∧
    (runStream frags).getLast? = some StreamChunk.done := by
  constructor
  · rw [runStream, List.count_append]
    rw [List.count_eq_zero.mpr (done_not_mem_processFragments frags [])]
    rfl
  · rw [runStream, List.getLast?_concat]

/-! Machinery for C2: an arguments delta at an index with no prior
`tool_call_start` is dropped without affecting state or output. -/

/-- `find?` over an in-place update at a different key is unchanged. -/
theorem find?_updateAt_ne (k idx : Nat) (v : InProgressToolCall)
    (h : k ≠ idx) :
    ∀ st : RState,
      (st.map fun p => if p.1 == k then (k, v) else p).find?
          (fun p => p.1 == idx) =
        st.find? (fun p => p.1 == idx) := by
  intro st
  induction st with
  | nil => rfl
  | cons p rest ih =>
      simp only [List.map_cons, List.find?_cons]
      rw [ih]
      by_cases hpk : p.1 = k
      · have hif : (if (p.1 == k) = true then (k, v) else p) = (k, v) := by
          simp [hpk]
        have h1 : ((k, v).1 == idx) = false := by simp [h]
        have h2 : (p.1 == idx) = false := by simp [hpk, h]
        rw [hif, h1, h2]
      · have hif : (if (p.1 == k) = true then (k, v) else p) = p := by
          simp [hpk]
        rw [hif]

/-- `Map.set` at a different key does not change `Map.get` at `idx`. -/
theorem mapGet_mapSet_ne (st : RState) (k idx : Nat) (v : InProgressToolCall)
    (h : k ≠ idx) : mapGet (mapSet st k v) idx = mapGet st idx := by
  rw [mapGet, mapGet, mapSet]
  split
  · rw [find?_updateAt_ne k idx v h st]
  · rw [List.find?_append]
    have hk : (k == idx) = false := by simp [h]
    have : ([(k, v)] : RState).find? (fun p => p.1 == idx) = none := by
      simp [List.find?_cons, hk]
    rw [this]
    cases st.find? fun p => p.1 == idx <;> rfl

/-- A falsy id leaves the start step inert. -/
theorem startStep_falsy (st : RState) (tc : DeltaToolCall)
    (h1 : strTruthy tc.id = false) : startStep st tc = (st, []) := by
  simp [startStep, h1]

/-- With no in-progress entry at the index, the delta step is inert (the
silently-dropped orphan delta). -/
theorem deltaStep_orphan (st : RState) (tc : DeltaToolCall)
    (h2 : mapGet st tc.index = none) : deltaStep st tc = (st, []) := by
  rw [deltaStep]
  split
  · rw [h2]
  · rfl

/-- A tool-call fragment with a falsy id and no in-progress entry at its index
is processed into no state change and no chunk. -/
theorem processDeltaToolCall_orphan (st : RState) (tc : DeltaToolCall)
    (h1 : strTruthy tc.id = false) (h2 : mapGet st tc.index = none) :
    processDeltaToolCall st tc = (st, []) := by
  simp [processDeltaToolCall, startStep_falsy st tc h1, deltaStep_orphan st tc h2]

/-- The start step at a different index leaves the entry at `idx` untouched. -/
theorem mapGet_startStep_ne (st : RState) (tc : DeltaToolCall) (idx : Nat)
    (h : tc.index ≠ idx) : mapGet (startStep st tc).1 idx = mapGet st idx := by
  rw [startStep]
  split
  · exact mapGet_mapSet_ne _ _ _ _ h
  · rfl

/-- The delta step at a different index leaves the entry at `idx` untouched. -/
theorem mapGet_deltaStep_ne (st : RState) (tc : DeltaToolCall) (idx : Nat)
    (h : tc.index ≠ idx) : mapGet (deltaStep st tc).1 idx = mapGet st idx := by
  rw [deltaStep]
  split
  · split
    · exact mapGet_mapSet_ne _ _ _ _ h
    · rfl
  · rfl

/-- Processing a tool-call fragment at a different index leaves the entry at
`idx` untouched. -/
theorem mapGet_processDeltaToolCall_ne (st : RState) (tc : DeltaToolCall)
    (idx : Nat) (h : tc.index ≠ idx) :
    mapGet (processDeltaToolCall st tc).1 idx = mapGet st idx := by
  simp only [processDeltaToolCall]
  rw [mapGet_deltaStep_ne _ _ _ h, mapGet_startStep_ne _ _ _ h]

/-- Folding a delta's tool-call fragments with no entry at `idx` and no
truthy id at `idx` equals folding with the `idx` fragments removed, and
leaves no entry at `idx`. -/
theorem processDeltaToolCalls_strip (idx : Nat) (tcs : List DeltaToolCall) :
    ∀ st, mapGet st idx = none →
    (∀ tc ∈ tcs, tc.index = idx → strTruthy tc.id = false) →
    processDeltaToolCalls st tcs =
      processDeltaToolCalls st (tcs.filter fun tc => !(tc.index == idx)) ∧
    mapGet (processDeltaToolCalls st tcs).1 idx = none := by
  induction tcs with
  | nil => intro st hinv _; exact ⟨rfl, hinv⟩
  | cons tc rest ih =>
      intro st hinv h
      by_cases hidx : tc.index = idx
      · have hid : strTruthy tc.id = false := h tc (List.mem_cons_self tc rest) hidx
        have hstep : processDeltaToolCall st tc = (st, []) :=
          processDeltaToolCall_orphan st tc hid (by rw [hidx]; exact hinv)
        have hfil : ((tc :: rest).filter fun tc => !(tc.index == idx)) =
            rest.filter fun tc => !(tc.index == idx) := by
          simp [List.filter_cons, hidx]
        obtain ⟨ihEq, ihInv⟩ :=
          ih st hinv (fun tc2 htc2 => h tc2 (List.mem_cons_of_mem tc htc2))
        refine ⟨?_, ?_⟩
        · rw [hfil, ← ihEq]
          simp [processDeltaToolCalls, hstep]
        · simp only [processDeltaToolCalls, hstep]
          exact ihInv
      · have hinv2 : mapGet (processDeltaToolCall st tc).1 idx = none := by
          rw [mapGet_processDeltaToolCall_ne st tc idx hidx]; exact hinv
        obtain ⟨ihEq, ihInv⟩ :=
          ih (processDeltaToolCall st tc).1 hinv2
            (fun tc2 htc2 => h tc2 (List.mem_cons_of_mem tc htc2))
        have hfil : ((tc :: rest).filter fun tc => !(tc.index == idx)) =
            tc :: rest.filter fun tc => !(tc.index == idx) := by
          simp [List.filter_cons, hidx]
        refine ⟨?_, ?_⟩
        · rw [hfil]
          simp only [processDeltaToolCalls]
          rw [ihEq]
        · simp only [processDeltaToolCalls]
          exact ihInv

/-- Processing one fragment with no entry at `idx` and no truthy id at `idx`
equals processing the fragment with its `idx` tool-call fragments removed,
and leaves no entry at `idx`. -/
theorem processFragment_strip (idx : Nat) (frag : StreamFragment) (st : RState)
    (hinv : mapGet st idx = none)
    (h : ∀ tc ∈ fragToolCalls frag, tc.index = idx → strTruthy tc.id = false) :
    processFragment st frag = processFragment st (stripToolCallsAt idx frag) ∧
    mapGet (processFragment st frag).1 idx = none := by
  cases hc : frag.choices with
  | nil =>
      constructor
      · simp [processFragment, stripToolCallsAt, hc]
      · simpa [processFragment, hc] using hinv
  | cons c cs =>
      cases htc : c.delta.tool_calls with
      | none =>
          constructor
          · simp [processFragment, stripToolCallsAt, hc, htc]
          · simpa [processFragment, hc, htc] using hinv
      | some tcs =>
          have hft : fragToolCalls frag = tcs := by
            simp [fragToolCalls, hc, htc]
          obtain ⟨hEq, hInv⟩ :=
            processDeltaToolCalls_strip idx tcs st hinv (by rw [← hft]; exact h)
          constructor
          · simp [processFragment, stripToolCallsAt, hc, htc, hEq]
          · simpa [processFragment, hc, htc] using hInv

/-- Processing a fragment sequence with no entry at `idx` and no truthy id at
`idx` anywhere equals processing the sequence with all `idx` tool-call
fragments removed, and leaves no entry at `idx`. -/
theorem processFragments_strip (idx : Nat) (frags : List StreamFragment) :
    ∀ st, mapGet st idx = none →
    (∀ frag ∈ frags, ∀ tc ∈ fragToolCalls frag,
      tc.index = idx → strTruthy tc.id = false) →
    processFragments st frags =
      processFragments st (frags.map (stripToolCallsAt idx)) ∧
    mapGet (processFragments st frags).1 idx = none := by
  induction frags with
  | nil => intro st hinv _; exact ⟨rfl, hinv⟩
  | cons f rest ih =>
      intro st hinv h
      obtain ⟨hfEq, hfInv⟩ :=
        processFragment_strip idx f st hinv
          (fun tc htc => h f (List.mem_cons_self f rest) tc htc)
      obtain ⟨ihEq, ihInv⟩ :=
        ih (processFragment st f).1 hfInv
          (fun frag hfrag tc htc => h frag (List.mem_cons_of_mem f hfrag) tc htc)
      refine ⟨?_, ?_⟩
      · simp only [List.map_cons, processFragments]
        rw [← hfEq, ihEq]
      · simp only [processFragments]
        exact ihInv

/-- A `tool_call_delta` chunk of a tool-call fold names the index of one of
the folded fragments. -/
theorem delta_mem_processDeltaToolCalls (tcs : List DeltaToolCall) :
    ∀ st i s, StreamChunk.tool_call_delta i s ∈ (processDeltaToolCalls st tcs).2 →
      ∃ tc ∈ tcs, tc.index = i := by
  induction tcs with
  | nil => intro st i s hmem; simp [processDeltaToolCalls] at hmem
  | cons tc rest ih =>
      intro st i s hmem
      simp only [processDeltaToolCalls, List.mem_append] at hmem
      rcases hmem with hm | hm
      · rcases mem_processDeltaToolCall _ _ _ hm with h' | h'
        · exact StreamChunk.noConfusion h'
        · have : i = tc.index := by
            injection h'
          exact ⟨tc, List.mem_cons_self tc rest, this.symm⟩
      · obtain ⟨tc2, htc2, hi⟩ := ih _ _ _ hm
        exact ⟨tc2, List.mem_cons_of_mem tc htc2, hi⟩

/-- A `tool_call_delta` chunk of one fragment names the index of one of the
fragment's tool-call fragments. -/
theorem delta_mem_processFragment (st : RState) (frag : StreamFragment)
    (i : Nat) (s : String)
    (h : StreamChunk.tool_call_delta i s ∈ (processFragment st frag).2) :
    ∃ tc ∈ fragToolCalls frag, tc.index = i := by
  simp only [processFragment, List.mem_append] at h
  rcases h with ((h | h) | h) | h
  · split at h <;> simp at h
  · split at h
    case h_1 tcs heq =>
      refine (delta_mem_processDeltaToolCalls tcs st i s h).imp fun tc htc => ?_
      have : fragToolCalls frag = tcs := by
        simp [fragToolCalls, heq]
      rw [this]
      exact htc
    case h_2 => simp at h
  · split at h <;> simp at h
  · revert h; cases frag.usage <;> simp

/-- A `tool_call_delta` chunk of a whole run names the index of a tool-call
fragment of one of the fragments. -/
theorem delta_mem_processFragments (frags : List StreamFragment) :
    ∀ st i s, StreamChunk.tool_call_delta i s ∈ (processFragments st frags).2 →
      ∃ frag ∈ frags, ∃ tc ∈ fragToolCalls frag, tc.index = i := by
  induction frags with
  | nil => intro st i s hmem; simp [processFragments] at hmem
  | cons f rest ih =>
      intro st i s hmem
      simp only [processFragments, List.mem_append] at hmem
      rcases hmem with hm | hm
      · obtain ⟨tc, htc, hi⟩ := delta_mem_processFragment st f i s hm
        exact ⟨f, List.mem_cons_self f rest, tc, htc, hi⟩
      · obtain ⟨frag, hfrag, tc, htc, hi⟩ := ih _ _ _ hm
        exact ⟨frag, List.mem_cons_of_mem f hfrag, tc, htc, hi⟩

/-- Stripping at `idx` filters the fragment's tool-call list at `idx`. -/
theorem fragToolCalls_strip (idx : Nat) (frag : StreamFragment) :
    fragToolCalls (stripToolCallsAt idx frag) =
      (fragToolCalls frag).filter fun tc => !(tc.index == idx) := by
  cases hc : frag.choices with
  | nil => simp [fragToolCalls, stripToolCallsAt, hc]
  | cons c cs =>
      cases htc : c.delta.tool_calls <;>
        simp [fragToolCalls, stripToolCallsAt, hc, htc]

/-- Processing an appended fragment sequence is processing the first part,
then the second from the resulting state, chunks concatenated. -/
theorem processFragments_append (xs ys : List StreamFragment) : ∀ st,
    processFragments st (xs ++ ys) =
      ((processFragments (processFragments st xs).1 ys).1,
        (processFragments st xs).2 ++
          (processFragments (processFragments st xs).1 ys).2) := by
  induction xs with
  | nil => intro st; simp [processFragments]
  | cons x rest ih =>
      intro st
      simp only [List.cons_append, processFragments, List.append_eq]
      rw [ih (processFragment st x).1]
      simp [List.append_assoc]

/-- C2: when no fragment up to and including the current one carried a fresh
(truthy) id at index `idx` — so no `tool_call_start` was emitted for `idx` —
a fragment carrying arguments deltas at `idx` produces no chunk for them: the
fragment's own chunk output contains no `tool_call_delta` for `idx`, and the
whole run equals the run with those orphan tool-call fragments deleted, so
the stream continues and the subsequent fragments are processed normally (the
reassembler is a total function, so nothing is raised). -/
theorem orphan_delta_dropped (pre post : List StreamFragment)
    (frag : StreamFragment) (idx : Nat)
    (h : ∀ f ∈ pre ++ [frag], ∀ tc ∈ fragToolCalls f,
      tc.index = idx → strTruthy tc.id = false) :
    runStream (pre ++ frag :: post) =
      runStream (pre ++ stripToolCallsAt idx frag :: post) ∧
    (∀ s, StreamChunk.tool_call_delta idx s ∉
      (processFragment (processFragments [] pre).1 frag).2) := by
  have hpre : ∀ f ∈ pre, ∀ tc ∈ fragToolCalls f,
      tc.index = idx → strTruthy tc.id = false :=
    fun f hf => h f (List.mem_append.mpr (Or.inl hf))
  have hfrag : ∀ tc ∈ fragToolCalls frag,
      tc.index = idx → strTruthy tc.id = false :=
    h frag (List.mem_append.mpr (Or.inr (List.mem_singleton.mpr rfl)))
  obtain ⟨-, hinv⟩ := processFragments_strip idx pre [] rfl hpre
  obtain ⟨hfEq, -⟩ := processFragment_strip idx frag _ hinv hfrag
  constructor
  · rw [runStream, runStream, processFragments_append pre (frag :: post),
      processFragments_append pre (stripToolCallsAt idx frag :: post)]
    simp only [processFragments, hfEq]
  · intro s hmem
    rw [hfEq] at hmem
    obtain ⟨tc, htc, hi⟩ := delta_mem_processFragment _ _ idx s hmem
    rw [fragToolCalls_strip] at htc
    have hne := List.of_mem_filter htc
    simp [hi] at hne

/-- Witness for C2: between two text fragments, a fragment whose only payload
is an orphan delta at index 0 contributes no delta chunk, and the whole run
equals the run with the orphan delta deleted. -/
theorem orphan_delta_dropped_witness :
    runStream ([wTextFrag] ++ cexOrphanFrag :: [wTextFrag]) =
      runStream ([wTextFrag] ++ stripToolCallsAt 0 cexOrphanFrag :: [wTextFrag]) ∧
    StreamChunk.tool_call_delta 0 "ab" ∉
      (processFragment (processFragments [] [wTextFrag]).1 cexOrphanFrag).2 := by
  have h := orphan_delta_dropped [wTextFrag] [wTextFrag] cexOrphanFrag 0 (by decide)
  exact ⟨h.1, h.2 "ab"⟩

end ExecOpenAI
